import Mathlib

/-!
Verification of the f3cp streaming object transcoder and metadata
normalization pipeline. The Go source (src/main.go) is embedded shallowly:
pure functions become Lean functions, the remote Fedora store becomes either
an oracle of fetch results (dump direction) or an explicit store state with a
trace of the calls performed (load direction), and byte payloads are lists of
byte values. Go strings are UTF-8 byte sequences; they are modelled as Lean
strings and compared byte-wise through their character data where ordering
matters.
-/

namespace F3CP

/-- Modelled from the spec: identity and bibliographic metadata for one
repository object (spec section 3, ObjectRecord). The struct itself lives in
the remote-client source file that is not under src/; only fields the core
logic touches are kept. -/
structure ObjectInfo where
  PID : String
  Label : String
  State : String
deriving DecidableEq

/-- Modelled from the spec: identity and technical metadata of one named
datastream (spec section 3, DatastreamRecord). The struct lives in the
remote-client source file that is not under src/. -/
structure DsInfo where
  Name : String
  Label : String
  State : String
  Checksum : String
  MIMEType : String
  Location : String
  Size : Int
deriving DecidableEq

/-- One datastream entry of a serialized object (src/main.go, DSentry): the
embedded record plus the text content and the raw base64 content. Go strings
are byte sequences, so both content forms are byte lists here. -/
structure DSentry where
  info : DsInfo
  Content : List Nat
  ContentBase64 : List Nat
deriving DecidableEq

/-- Name of a datastream entry: Go promotes the field of the embedded DsInfo. -/
def DSentry.Name (d : DSentry) : String := d.info.Name

/-- Size of a datastream entry: Go promotes the field of the embedded DsInfo. -/
def DSentry.Size (d : DSentry) : Int := d.info.Size

/-- A serialized object (src/main.go, FObject): the embedded object record
plus the datastream list. -/
structure FObject where
  info : ObjectInfo
  DSitems : List DSentry
deriving DecidableEq

/-- PID of a serialized object: Go promotes the field of the embedded record. -/
def FObject.PID (o : FObject) : String := o.info.PID

/-- Acceptance of one continuation byte within an allowed range. -/
def contOk (lo hi b : Nat) : Bool := decide (lo ≤ b) && decide (b ≤ hi)

/-- Validity of a byte sequence as UTF-8, mirroring Go unicode/utf8.Valid as
called in FetchOneObject (src/main.go line 126): ASCII bytes pass, C0/C1 and
bytes above F4 are rejected, and each multi-byte sequence checks its
continuation bytes, with the narrowed first-continuation ranges for E0, ED,
F0 and F4 that exclude overlong forms and surrogates. -/
def utf8Valid : List Nat → Bool
  | [] => true
  | b0 :: rest =>
    if b0 ≤ 0x7F then utf8Valid rest
    else if b0 < 0xC2 then false
    else if b0 ≤ 0xDF then
      match rest with
      | b1 :: r => contOk 0x80 0xBF b1 && utf8Valid r
      | [] => false
    else if b0 ≤ 0xEF then
      match rest with
      | b1 :: b2 :: r =>
        (if b0 = 0xE0 then contOk 0xA0 0xBF b1
         else if b0 = 0xED then contOk 0x80 0x9F b1
         else contOk 0x80 0xBF b1) && contOk 0x80 0xBF b2 && utf8Valid r
      | _ => false
    else if b0 ≤ 0xF4 then
      match rest with
      | b1 :: b2 :: b3 :: r =>
        (if b0 = 0xF0 then contOk 0x90 0xBF b1
         else if b0 = 0xF4 then contOk 0x80 0x8F b1
         else contOk 0x80 0xBF b1) && contOk 0x80 0xBF b2 && contOk 0x80 0xBF b3 && utf8Valid r
      | _ => false
    else false

/-- The content-encoding decision of FetchOneObject (src/main.go lines
126-129): bytes read into ContentBase64 that are valid UTF-8 move to the
Content field and the raw form is cleared to nil; otherwise only the raw form
is kept. Returns the pair (Content, ContentBase64). -/
def transcodeContent (bytes : List Nat) : List Nat × List Nat :=
  if utf8Valid bytes then (bytes, []) else ([], bytes)

/-- Modelled from the spec: error kinds of the remote store contract (spec
section 6) — absence is the distinguished kind the code branches on, anything
else is opaque. -/
inductive FedoraErr where
  | notFound
  | other (msg : String)
deriving DecidableEq

/-- Modelled from the spec: the read half of the remote store contract (spec
section 6), as consumed by the dump direction. Each operation either succeeds
or fails; content arrives as a byte list. -/
structure RemoteFedora where
  getObjectInfo : String → Except FedoraErr ObjectInfo
  getDatastreamList : String → Except FedoraErr (List String)
  getDatastreamInfo : String → String → Except FedoraErr DsInfo
  getDatastream : String → String → Except FedoraErr (List Nat)

/-- Byte-wise lexicographic comparison of character lists by code point. On
UTF-8 strings this coincides with the byte-wise order Go uses to sort a
sort.StringSlice. -/
def lexLe : List Char → List Char → Bool
  | [], _ => true
  | _ :: _, [] => false
  | a :: as, b :: bs => if a = b then lexLe as bs else decide (a.toNat < b.toNat)

/-- String comparison used for sorting datastream names. -/
def strLe (a b : String) : Bool := lexLe a.data b.data

/-- Propositional form of the string comparison. -/
def strLeP (a b : String) : Prop := strLe a b = true

instance : DecidableRel strLeP := fun a b => instDecidableEqBool (strLe a b) true

/-- Sorting of the datastream names, modelling sort.StringSlice(dsNames).Sort()
in FetchOneObject (src/main.go line 109). Any correct sort of strings yields
the same list, so an insertion sort stands in for the Go sort. -/
def sortStrings (l : List String) : List String := List.insertionSort strLeP l

/-- Loop of FetchOneObject over the sorted datastream names (src/main.go lines
110-132): fetch each record; when its recorded size is positive also fetch and
read the content and apply the UTF-8 encoding decision; any error aborts the
whole fetch. -/
def fetchDS (remote : RemoteFedora) (id : String) : List String → Except FedoraErr (List DSentry)
  | [] => Except.ok []
  | ds :: rest =>
    match remote.getDatastreamInfo id ds with
    | Except.error e => Except.error e
    | Except.ok dsinfo =>
      if dsinfo.Size > 0 then
        match remote.getDatastream id ds with
        | Except.error e => Except.error e
        | Except.ok body =>
          match fetchDS remote id rest with
          | Except.error e => Except.error e
          | Except.ok items =>
            Except.ok ({ info := dsinfo, Content := (transcodeContent body).1,
                         ContentBase64 := (transcodeContent body).2 } :: items)
      else
        match fetchDS remote id rest with
        | Except.error e => Except.error e
        | Except.ok items =>
          Except.ok ({ info := dsinfo, Content := [], ContentBase64 := [] } :: items)

/-- FetchOneObject (src/main.go lines 97-134): fetch the object record, list
the datastream names, sort them, and build the serialized object; any fetch
error at any stage aborts the whole object. -/
def FetchOneObject (remote : RemoteFedora) (id : String) : Except FedoraErr FObject :=
  match remote.getObjectInfo id with
  | Except.error e => Except.error e
  | Except.ok objInfo =>
    match remote.getDatastreamList id with
    | Except.error e => Except.error e
    | Except.ok dsNames =>
      match fetchDS remote id (sortStrings dsNames) with
      | Except.error e => Except.error e
      | Except.ok items => Except.ok { info := objInfo, DSitems := items }

/-- One token of the dump output: DumpList writes the enclosing brackets and
the separating commas by hand, and each successfully fetched object is one
encoded array element. -/
inductive DumpToken where
  | lbracket
  | rbracket
  | comma
  | elem (obj : FObject)
deriving DecidableEq

/-- Loop body of DumpList (src/main.go lines 77-90): on every iteration except
the first a separator comma is written; the first flag is cleared before the
fetch is attempted, and a failed fetch skips only the element itself. -/
def dumpGo (remote : RemoteFedora) : Bool → List String → List DumpToken
  | _, [] => []
  | first, id :: rest =>
    let sep : List DumpToken := if first then [] else [DumpToken.comma]
    match FetchOneObject remote id with
    | Except.error _ => sep ++ dumpGo remote false rest
    | Except.ok obj => sep ++ [DumpToken.elem obj] ++ dumpGo remote false rest

/-- DumpList (src/main.go lines 72-92): opening bracket, the per-id loop, then
the closing bracket. -/
def DumpList (remote : RemoteFedora) (ids : List String) : List DumpToken :=
  [DumpToken.lbracket] ++ dumpGo remote true ids ++ [DumpToken.rbracket]

/-- Recognizer for the comma token. -/
def isComma : DumpToken → Bool
  | DumpToken.comma => true
  | _ => false

/-- Recognizer for an encoded array element. -/
def isElem : DumpToken → Bool
  | DumpToken.elem _ => true
  | _ => false

/-- Number of separator commas in a dump output. -/
def countCommas (l : List DumpToken) : Nat := l.countP isComma

/-- Number of encoded array elements in a dump output. -/
def countElems (l : List DumpToken) : Nat := l.countP isElem

/-- Content source chosen for one datastream upload (src/main.go lines
187-192): either a reader over the text form or a reader over the raw bytes;
absence of both leaves the source nil, modelled as Option.none. -/
inductive ContentSource where
  | text (s : List Nat)
  | raw (b : List Nat)
deriving DecidableEq

/-- Modelled from the spec: one call made against the write half of the remote
store contract (spec section 6), recorded in a trace so that theorems can
speak about which operations an upload performs. -/
inductive RemoteEvent where
  | probeObject (pid : String)
  | makeObject (objInfo : ObjectInfo)
  | probeDatastream (pid name : String)
  | makeDatastream (pid : String) (dsinfo : DsInfo) (src : Option ContentSource)
  | updateDatastream (pid : String) (dsinfo : DsInfo) (src : Option ContentSource)
deriving DecidableEq

/-- Datastream name mentioned by a remote call, if any. -/
def eventDSName : RemoteEvent → Option String
  | RemoteEvent.probeDatastream _ n => some n
  | RemoteEvent.makeDatastream _ i _ => some i.Name
  | RemoteEvent.updateDatastream _ i _ => some i.Name
  | _ => none

/-- Lookup in an association list by key. -/
def assocFind {κ β : Type} [DecidableEq κ] (k : κ) : List (κ × β) → Option β
  | [] => none
  | p :: rest => if p.1 = k then some p.2 else assocFind k rest

/-- Modelled from the spec: the remote store state visible through the
contract, keyed by PID for object records and by (PID, datastream name) for
datastream records. -/
structure Store where
  objects : List (String × ObjectInfo)
  streams : List ((String × String) × DsInfo)
deriving DecidableEq

/-- Modelled from the spec: updating a datastream record in place. -/
def updateStream (l : List ((String × String) × DsInfo)) (k : String × String)
    (v : DsInfo) : List ((String × String) × DsInfo) :=
  l.map (fun p => if p.1 = k then (k, v) else p)

/-- The content-source choice of UploadOneObject (src/main.go lines 187-192):
a non-empty text form wins, else a non-empty raw form, else no content. -/
def chooseSource (ds : DSentry) : Option ContentSource :=
  if ds.Content ≠ [] then some (ContentSource.text ds.Content)
  else if ds.ContentBase64 ≠ [] then some (ContentSource.raw ds.ContentBase64)
  else none

/-- Datastream loop of UploadOneObject (src/main.go lines 179-202) against the
modelled store: entries named DC are skipped entirely; every other entry is
probed by (PID, name) and then created or updated according to whether that
datastream already exists. Returns the new store and the trace of calls. -/
def uploadDS (pid : String) : Store → List DSentry → Store × List RemoteEvent
  | s, [] => (s, [])
  | s, ds :: rest =>
    if ds.Name = "DC" then uploadDS pid s rest
    else
      match assocFind (pid, ds.Name) s.streams with
      | none =>
        ((uploadDS pid { s with streams := s.streams ++ [((pid, ds.Name), ds.info)] } rest).1,
         RemoteEvent.probeDatastream pid ds.Name ::
         RemoteEvent.makeDatastream pid ds.info (chooseSource ds) ::
         (uploadDS pid { s with streams := s.streams ++ [((pid, ds.Name), ds.info)] } rest).2)
      | some _ =>
        ((uploadDS pid { s with streams := updateStream s.streams (pid, ds.Name) ds.info } rest).1,
         RemoteEvent.probeDatastream pid ds.Name ::
         RemoteEvent.updateDatastream pid ds.info (chooseSource ds) ::
         (uploadDS pid { s with streams := updateStream s.streams (pid, ds.Name) ds.info } rest).2)

/-- UploadOneObject (src/main.go lines 169-204) against the modelled store:
probe the object by PID; only when the probe reports not-found is the object
created from the decoded record (an existing record is left untouched); then
the datastream loop runs over the decoded list in order. -/
def UploadOneObject (s : Store) (obj : FObject) : Store × List RemoteEvent :=
  match assocFind obj.PID s.objects with
  | none =>
    ((uploadDS obj.PID { s with objects := s.objects ++ [(obj.PID, obj.info)] } obj.DSitems).1,
     RemoteEvent.probeObject obj.PID :: RemoteEvent.makeObject obj.info ::
     (uploadDS obj.PID { s with objects := s.objects ++ [(obj.PID, obj.info)] } obj.DSitems).2)
  | some _ =>
    ((uploadDS obj.PID s obj.DSitems).1,
     RemoteEvent.probeObject obj.PID :: (uploadDS obj.PID s obj.DSitems).2)

/-- LoadList (src/main.go lines 136-167) over an already-tokenized input: each
input element is the decode outcome of one JSON array element. A decode error
is returned to the caller at once; an upload error likewise; otherwise every
decoded object is uploaded in order. The upload step is a parameter so that
failing reconciliations can be represented. Returns the final store, the trace
of remote calls made, and the error returned to the caller, if any. -/
def LoadList (upload : Store → FObject → Except FedoraErr (Store × List RemoteEvent)) :
    Store → List (Except FedoraErr FObject) → Store × List RemoteEvent × Option FedoraErr
  | s, [] => (s, [], none)
  | s, Except.error e :: _ => (s, [], some e)
  | s, Except.ok obj :: rest =>
    match upload s obj with
    | Except.error e => (s, [], some e)
    | Except.ok (s1, tr) =>
      ((LoadList upload s1 rest).1, tr ++ (LoadList upload s1 rest).2.1,
       (LoadList upload s1 rest).2.2)

/-- One normalized metadata fact (src/main.go, Triples). -/
structure Triples where
  Subject : String
  Predicate : String
  Object : String
deriving DecidableEq

/-- Accumulator of normalized triples for one object (src/main.go, CurateItem). -/
structure CurateItem where
  PID : String
  Meta : List Triples
deriving DecidableEq

/-- CurateItem.Add (src/main.go lines 217-226): append one triple whose
subject is the item PID, doing nothing when the value is empty. -/
def CurateItem.Add (c : CurateItem) (predicate value : String) : CurateItem :=
  if value = "" then c
  else { c with Meta := c.Meta ++ [{ Subject := c.PID, Predicate := predicate, Object := value }] }

/-- CurateItem.Add3 (src/main.go lines 228-237): append one triple with an
explicit subject, doing nothing when the value is empty. -/
def CurateItem.Add3 (c : CurateItem) (subject predicate value : String) : CurateItem :=
  if value = "" then c
  else { c with Meta := c.Meta ++ [{ Subject := subject, Predicate := predicate, Object := value }] }

/-- The static prefix table (src/main.go lines 359-373). A Go map has no
deterministic iteration order, so the table is modelled as an association
list; the iteration order turns out to be immaterial because no key of the
table is a prefix of another key. -/
def Prefixes : List (String × String) := [
  ("info:fedora/und:", "und:"),
  ("info:fedora/afmodel:", ""),
  ("http://purl.org/dc/terms/", "dc:"),
  ("https://library.nd.edu/ns/terms/", "nd:"),
  ("http://purl.org/ontology/bibo/", "bibo:"),
  ("http://www.ndltd.org/standards/metadata/etdms/1.1/", "ms:"),
  ("http://purl.org/vra/", "vracore:"),
  ("http://id.loc.gov/vocabulary/relators/", "mrel:"),
  ("http://www.ebu.ch/metadata/ontologies/ebucore/ebucore#", "ebucore:"),
  ("http://xmlns.com/foaf/0.1/", "foaf:"),
  ("http://projecthydra.org/ns/relations#", "hydra:"),
  ("http://www.w3.org/2000/01/rdf-schema#", "rdfs:"),
  ("http://purl.org/pav/", "pav:")]

/-- Byte-wise prefix test, modelling strings.HasPrefix. -/
def hasPrefix (s pre : String) : Bool := List.isPrefixOf pre.data s.data

/-- Removal of a leading prefix, modelling strings.TrimPrefix. -/
def trimPrefix (s pre : String) : String :=
  if hasPrefix s pre then String.mk (s.data.drop pre.data.length) else s

/-- The loop of ApplyPrefixes over the table entries in some order. -/
def applyPrefixesAux : List (String × String) → String → String
  | [], s => s
  | kv :: rest, s =>
    if hasPrefix s kv.1 then kv.2 ++ trimPrefix s kv.1 else applyPrefixesAux rest s

/-- ApplyPrefixes (src/main.go lines 375-382): replace a registered leading
URI by its short form, leaving strings that match no registered URI unchanged. -/
def ApplyPrefixes (s : String) : String := applyPrefixesAux Prefixes s

/-- One access block of a decoded rights document (src/main.go, Access). -/
structure Access where
  type : String
  Persons : List String
  Groups : List String
deriving DecidableEq

/-- A decoded rightsMetadata document (src/main.go, rightsDS). -/
structure rightsDS where
  Access : List F3CP.Access
  Embargo : String
deriving DecidableEq

/-- A range loop of Add calls over a list of values with one fixed label. -/
def addEach (c : CurateItem) (label : String) (vals : List String) : CurateItem :=
  vals.foldl (fun c v => c.Add label v) c

/-- Body of the access-block loop of ReadRightsMetadata (src/main.go lines
436-456): read and edit blocks emit one triple per group and then one per
person under the matching labels; blocks of any other type are skipped. -/
def rightsStep (c : CurateItem) (a : Access) : CurateItem :=
  if a.type = "read" then addEach (addEach c "read-group" a.Groups) "read-person" a.Persons
  else if a.type = "edit" then addEach (addEach c "edit-group" a.Groups) "edit-person" a.Persons
  else c

/-- Emission step of ReadRightsMetadata (src/main.go lines 435-456) on an
already-decoded rights document: the embargo-date triple first, then the
access blocks in order. -/
def ReadRightsMetadata (v : rightsDS) (c : CurateItem) : CurateItem :=
  (v.Access).foldl rightsStep (c.Add "embargo-date" v.Embargo)

/-- Body of the statement loop of ReadDescMetadata (src/main.go lines
399-406): compact subject, predicate and object, rescope the subject under
the PID whenever the compacted subject differs from it, and add the triple. -/
def descStep (id : String) (c : CurateItem) (t : String × String × String) : CurateItem :=
  let subj := ApplyPrefixes t.1
  let subj1 := if subj ≠ id then id ++ "/" ++ subj else subj
  c.Add3 subj1 (ApplyPrefixes t.2.1) (ApplyPrefixes t.2.2)

/-- Emission step of ReadDescMetadata (src/main.go lines 390-407) on the list
of decoded N-Triples statements, given as (subject, predicate, object) string
triples. -/
def ReadDescMetadata (id : String) (stmts : List (String × String × String))
    (c : CurateItem) : CurateItem :=
  stmts.foldl (descStep id) c

/-- Recognizer for the four person/group permission labels. -/
def isPGLabel : String → Bool
  | "read-person" => true
  | "read-group" => true
  | "edit-person" => true
  | "edit-group" => true
  | _ => false

/-- Number of person/group permission triples accumulated in an item. -/
def countPG (c : CurateItem) : Nat := c.Meta.countP (fun t => isPGLabel t.Predicate)

/-- Recognizer for the embargo-date label. -/
def isEmbargoLabel : String → Bool
  | "embargo-date" => true
  | _ => false

/-- Number of embargo-date triples accumulated in an item. -/
def countEmbargo (c : CurateItem) : Nat := c.Meta.countP (fun t => isEmbargoLabel t.Predicate)

/-- Number of non-empty person and group identifiers of one access block. -/
def pgEntryCount (a : Access) : Nat :=
  (a.Groups.filter (fun x => x != "")).length + (a.Persons.filter (fun x => x != "")).length

/-- Number of person/group triples the amended C6 predicts: one per non-empty
person or group identifier in each access block typed read or edit, blocks of
any other type contributing nothing. -/
def rightsClaimPGCount (v : rightsDS) : Nat :=
  ((v.Access).map (fun a => if a.type = "read" ∨ a.type = "edit" then pgEntryCount a else 0)).sum

/-- Exactly one of the two content representations is non-empty. -/
def exactlyOneNonEmpty (text raw : List Nat) : Prop :=
  (text ≠ [] ∧ raw = []) ∨ (text = [] ∧ raw ≠ [])

/-- Fixture: a datastream record with a given name and size and blank
remaining fields. -/
def mkDs (n : String) (sz : Int) : DsInfo :=
  { Name := n, Label := "", State := "A", Checksum := "", MIMEType := "", Location := "", Size := sz }

/-- Fixture: a datastream entry with no content. -/
def emptyEntry (n : String) : DSentry := { info := mkDs n 0, Content := [], ContentBase64 := [] }

/-- Fixture: object record for id a. -/
def objA : ObjectInfo := { PID := "a", Label := "object a", State := "A" }

/-- Fixture: object record for id x. -/
def objX : ObjectInfo := { PID := "x", Label := "object x", State := "A" }

/-- Fixture: a remote that holds object a with no datastreams and reports
everything else missing, exercising the dump loop where fetching b fails. -/
def dumpRemoteC1 : RemoteFedora :=
  { getObjectInfo := fun id => if id = "a" then Except.ok objA else Except.error FedoraErr.notFound,
    getDatastreamList := fun _ => Except.ok [],
    getDatastreamInfo := fun _ _ => Except.error FedoraErr.notFound,
    getDatastream := fun _ _ => Except.error FedoraErr.notFound }

/-- Fixture: the object which emptyBodyRemote below yields on fetch: its one
datastream entry carries an empty text form and an empty raw form. -/
def fetchedEmptyBody : FObject :=
  { info := objX,
    DSitems := [{ info := mkDs "content" 1, Content := [], ContentBase64 := [] }] }

/-- Fixture: a remote whose object x has one datastream of recorded size 1
whose body reads as zero bytes. -/
def emptyBodyRemote : RemoteFedora :=
  { getObjectInfo := fun _ => Except.ok objX,
    getDatastreamList := fun _ => Except.ok ["content"],
    getDatastreamInfo := fun _ n => Except.ok (mkDs n 1),
    getDatastream := fun _ _ => Except.ok [] }

/-- Fixture: a remote listing its two datastream names out of order. -/
def sortRemote : RemoteFedora :=
  { getObjectInfo := fun _ => Except.ok objX,
    getDatastreamList := fun _ => Except.ok ["b", "a"],
    getDatastreamInfo := fun _ n => Except.ok (mkDs n 0),
    getDatastream := fun _ _ => Except.error FedoraErr.notFound }

/-- Fixture: the object sortRemote serves. -/
def fetchedX : FObject := { info := objX, DSitems := [emptyEntry "a", emptyEntry "b"] }

/-- Fixture: an object with a DC entry, a text entry named a and a raw entry
named b. -/
def objW : FObject :=
  { info := objX,
    DSitems := [
      { info := mkDs "DC" 2, Content := [68], ContentBase64 := [] },
      { info := mkDs "a" 3, Content := [65], ContentBase64 := [] },
      { info := mkDs "b" 4, Content := [], ContentBase64 := [66] }] }

/-- Fixture: a store that does not hold object x but already has a datastream
named a for it. -/
def storeW : Store := { objects := [], streams := [(("x", "a"), mkDs "a" 1)] }

/-- Fixture: the empty store. -/
def emptyStore : Store := { objects := [], streams := [] }

/-- Fixture: an upload step that always fails. -/
def failUpload : Store → FObject → Except FedoraErr (Store × List RemoteEvent) :=
  fun _ _ => Except.error (FedoraErr.other "boom")

/-- Fixture: an empty triple accumulator for object p. -/
def item0 : CurateItem := { PID := "p", Meta := [] }

/-- Fixture: an accumulator holding one triple with a non-empty object value. -/
def itemNE : CurateItem :=
  { PID := "p", Meta := [{ Subject := "p", Predicate := "pr", Object := "v" }] }

/-- Fixture: a rights document with a single read access block whose only
person identifier is the empty string. -/
def vBadRights : rightsDS :=
  { Access := [{ type := "read", Persons := [""], Groups := [] }], Embargo := "" }

/-! ## Helper lemmas -/

theorem char_toNat_inj {a b : Char} (h : a.toNat = b.toNat) : a = b :=
  Char.ext (UInt32.ext h)

theorem lexLe_total : ∀ as bs : List Char, lexLe as bs = true ∨ lexLe bs as = true
  | [], _ => Or.inl rfl
  | _ :: _, [] => Or.inr rfl
  | a :: as, b :: bs => by
    by_cases hab : a = b
    · subst hab
      rcases lexLe_total as bs with h | h
      · exact Or.inl (by simpa [lexLe] using h)
      · exact Or.inr (by simpa [lexLe] using h)
    · have hne : a.toNat ≠ b.toNat := fun h => hab (char_toNat_inj h)
      rcases Nat.lt_or_ge a.toNat b.toNat with h | h
      · exact Or.inl (by simp [lexLe, hab, h])
      · have h2 : b.toNat < a.toNat := lt_of_le_of_ne h (fun hh => hne hh.symm)
        exact Or.inr (by simp [lexLe, Ne.symm hab, h2])

theorem lexLe_trans : ∀ as bs cs : List Char,
    lexLe as bs = true → lexLe bs cs = true → lexLe as cs = true
  | [], _, _, _, _ => rfl
  | _ :: _, [], _, h, _ => by simp [lexLe] at h
  | _ :: _, _ :: _, [], _, h => by simp [lexLe] at h
  | a :: as, b :: bs, c :: cs, h1, h2 => by
    by_cases hab : a = b
    · subst hab
      by_cases hac : a = c
      · subst hac
        simp only [lexLe, if_pos rfl] at h1 h2 ⊢
        exact lexLe_trans as bs cs h1 h2
      · simp only [lexLe, if_pos rfl] at h1
        simpa [lexLe, hac] using h2
    · by_cases hbc : b = c
      · subst hbc
        simpa [lexLe, hab] using h1
      · simp [lexLe, hab] at h1
        simp [lexLe, hbc] at h2
        have hac : a.toNat ≠ c.toNat := by omega
        have hac' : a ≠ c := fun h => hac (by rw [h])
        simp [lexLe, hac']
        omega

theorem lexLe_antisymm : ∀ as bs : List Char,
    lexLe as bs = true → lexLe bs as = true → as = bs
  | [], [], _, _ => rfl
  | [], _ :: _, _, h => by simp [lexLe] at h
  | _ :: _, [], h, _ => by simp [lexLe] at h
  | a :: as, b :: bs, h1, h2 => by
    by_cases hab : a = b
    · subst hab
      simp only [lexLe, if_pos rfl] at h1 h2
      rw [lexLe_antisymm as bs h1 h2]
    · exfalso
      simp [lexLe, hab] at h1
      simp [lexLe, Ne.symm hab] at h2
      omega

theorem strLeP_total (a b : String) : strLeP a b ∨ strLeP b a :=
  lexLe_total a.data b.data

theorem strLeP_trans {a b c : String} (h1 : strLeP a b) (h2 : strLeP b c) : strLeP a c :=
  lexLe_trans a.data b.data c.data h1 h2

theorem strLeP_antisymm {a b : String} (h1 : strLeP a b) (h2 : strLeP b a) : a = b :=
  String.ext (lexLe_antisymm a.data b.data h1 h2)

/-! ## C1 -/

/-- C1: the claim fails on the code. DumpList writes the separating comma
before attempting the fetch and clears its first-iteration flag even when the
fetch fails, so dumping the ids a and b where only b fails to fetch emits one
element followed by an orphaned trailing comma: one successfully fetched
object but one comma, where the claim requires zero commas, and the output is
not valid JSON. This contradicts both the spec and the function's own doc
comment, which promises a well-formed JSON array. -/
theorem C1_dump_orphaned_comma :
    DumpList dumpRemoteC1 ["a", "b"]
      = [DumpToken.lbracket, DumpToken.elem { info := objA, DSitems := [] },
         DumpToken.comma, DumpToken.rbracket]
    ∧ countElems (DumpList dumpRemoteC1 ["a", "b"]) = 1
    ∧ countCommas (DumpList dumpRemoteC1 ["a", "b"]) = 1 := by
  refine ⟨?_, ?_, ?_⟩ <;> decide

/-! ## C3 -/

/-- C3 counterexample: the claim as stated fails on the code for the empty
byte payload. A fetched body of zero bytes (the datastream record announces a
positive size, but the body reads as empty) is valid UTF-8, so the text form
is set to the empty string and the raw form to nil: both representations end
up empty, not exactly one non-empty. -/
theorem C3_counterexample_empty_payload :
    FetchOneObject emptyBodyRemote "x" = Except.ok fetchedEmptyBody
    ∧ ¬ exactlyOneNonEmpty [] [] := by
  constructor
  · rfl
  · intro h
    rcases h with ⟨h1, _⟩ | ⟨_, h2⟩
    · exact h1 rfl
    · exact h2 rfl

/-- C3 (amended): for any byte payload fetched during transcoding, valid
UTF-8 bytes are stored as the text representation with the raw form
discarded, any other bytes are stored only in the raw form, and for every
non-empty payload exactly one of the two representations is non-empty; the
empty payload (which is valid UTF-8) leaves both representations empty. -/
theorem C3_encoding_invariant (bytes : List Nat) :
    (utf8Valid bytes = true → transcodeContent bytes = (bytes, [])) ∧
    (utf8Valid bytes = false → transcodeContent bytes = ([], bytes)) ∧
    (bytes ≠ [] →
      exactlyOneNonEmpty (transcodeContent bytes).1 (transcodeContent bytes).2) ∧
    (bytes = [] → transcodeContent bytes = ([], [])) := by
  refine ⟨?_, ?_, ?_, ?_⟩
  · intro h; simp [transcodeContent, h]
  · intro h; simp [transcodeContent, h]
  · intro h
    by_cases hv : utf8Valid bytes
    · simp [transcodeContent, hv, exactlyOneNonEmpty, h]
    · simp [transcodeContent, hv, exactlyOneNonEmpty, h]
  · intro h; subst h; rfl

/-- Witness for the amended C3 at the one-byte payload 255, which is not
valid UTF-8: exactly one representation (the raw one) is non-empty. -/
theorem C3_encoding_invariant_witness :
    transcodeContent [255] = ([], [255]) ∧
    exactlyOneNonEmpty (transcodeContent [255]).1 (transcodeContent [255]).2 :=
  ⟨(C3_encoding_invariant [255]).2.1 (by decide),
   (C3_encoding_invariant [255]).2.2.1 (by decide)⟩

/-! ## C5 -/

/-- C5: load is fail-fast — a decode error for an element is returned to the
caller at once with nothing after it processed (the result is independent of
the rest of the stream and no upload call is made for it), and an upload
error for a decoded object likewise aborts immediately — unlike dump, where a
failed fetch only skips that element and the loop continues with the
remaining ids. -/
theorem C5_load_fail_fast
    (upload : Store → FObject → Except FedoraErr (Store × List RemoteEvent))
    (s : Store) (e er : FedoraErr) (obj : FObject)
    (rest : List (Except FedoraErr FObject))
    (remote : RemoteFedora) (first : Bool) (id : String) (ids : List String) :
    (LoadList upload s (Except.error e :: rest) = (s, [], some e)) ∧
    (upload s obj = Except.error e →
       LoadList upload s (Except.ok obj :: rest) = (s, [], some e)) ∧
    (FetchOneObject remote id = Except.error er →
       dumpGo remote first (id :: ids)
         = (if first then [] else [DumpToken.comma]) ++ dumpGo remote false ids) := by
  refine ⟨rfl, ?_, ?_⟩
  · intro h; simp [LoadList, h]
  · intro h; simp [dumpGo, h]

/-- Witness for C5: a failing upload aborts a one-element load with the error
surfaced, and a failing fetch lets the dump loop continue. -/
theorem C5_load_fail_fast_witness :
    LoadList failUpload emptyStore [Except.ok objW]
      = (emptyStore, [], some (FedoraErr.other "boom")) ∧
    dumpGo dumpRemoteC1 false ["b"] = [DumpToken.comma] := by
  have h := C5_load_fail_fast failUpload emptyStore (FedoraErr.other "boom")
    FedoraErr.notFound objW [] dumpRemoteC1 false "b" []
  refine ⟨h.2.1 rfl, ?_⟩
  have h2 := h.2.2 rfl
  simpa using h2

/-! ## C2 and C4: lemmas about the upload path -/

theorem assocFind_append_single {κ β : Type} [DecidableEq κ]
    (l : List (κ × β)) (k k' : κ) (v : β) (h : k ≠ k') :
    assocFind k (l ++ [(k', v)]) = assocFind k l := by
  induction l with
  | nil => simp [assocFind, Ne.symm h]
  | cons p rest ih =>
    by_cases hp : p.1 = k
    · simp [assocFind, hp]
    · simp [assocFind, hp, ih]

theorem assocFind_updateStream (l : List ((String × String) × DsInfo))
    (k k' : String × String) (v : DsInfo) (h : k ≠ k') :
    assocFind k (updateStream l k' v) = assocFind k l := by
  induction l with
  | nil => rfl
  | cons p rest ih =>
    by_cases hp : p.1 = k'
    · have h1 : updateStream (p :: rest) k' v = (k', v) :: updateStream rest k' v := by
        simp [updateStream, hp]
      have h2 : ¬ (k' = k) := fun hh => h hh.symm
      have h3 : ¬ (p.1 = k) := by rw [hp]; exact h2
      rw [h1]
      simp only [assocFind, if_neg h2, if_neg h3]
      exact ih
    · have h1 : updateStream (p :: rest) k' v = p :: updateStream rest k' v := by
        simp [updateStream, hp]
      rw [h1]
      by_cases hk : p.1 = k
      · simp only [assocFind, if_pos hk]
      · simp only [assocFind, if_neg hk]
        exact ih

theorem uploadDS_cons_DC (pid : String) (s : Store) (ds : DSentry) (rest : List DSentry)
    (hdc : ds.Name = "DC") :
    uploadDS pid s (ds :: rest) = uploadDS pid s rest := by
  simp [uploadDS, hdc]

theorem uploadDS_cons_none (pid : String) (s : Store) (ds : DSentry) (rest : List DSentry)
    (hdc : ds.Name ≠ "DC") (hfind : assocFind (pid, ds.Name) s.streams = none) :
    uploadDS pid s (ds :: rest)
      = ((uploadDS pid { s with streams := s.streams ++ [((pid, ds.Name), ds.info)] } rest).1,
         RemoteEvent.probeDatastream pid ds.Name ::
         RemoteEvent.makeDatastream pid ds.info (chooseSource ds) ::
         (uploadDS pid { s with streams := s.streams ++ [((pid, ds.Name), ds.info)] } rest).2) := by
  simp only [uploadDS]
  rw [if_neg hdc, hfind]

theorem uploadDS_cons_some (pid : String) (s : Store) (ds : DSentry) (rest : List DSentry)
    (v : DsInfo) (hdc : ds.Name ≠ "DC")
    (hfind : assocFind (pid, ds.Name) s.streams = some v) :
    uploadDS pid s (ds :: rest)
      = ((uploadDS pid { s with streams := updateStream s.streams (pid, ds.Name) ds.info } rest).1,
         RemoteEvent.probeDatastream pid ds.Name ::
         RemoteEvent.updateDatastream pid ds.info (chooseSource ds) ::
         (uploadDS pid { s with streams := updateStream s.streams (pid, ds.Name) ds.info } rest).2) := by
  simp only [uploadDS]
  rw [if_neg hdc, hfind]

theorem uploadDS_objects (pid : String) :
    ∀ (l : List DSentry) (s : Store), (uploadDS pid s l).1.objects = s.objects
  | [], _ => rfl
  | ds :: rest, s => by
    by_cases hdc : ds.Name = "DC"
    · rw [uploadDS_cons_DC pid s ds rest hdc]
      exact uploadDS_objects pid rest s
    · cases hfind : assocFind (pid, ds.Name) s.streams with
      | none =>
        rw [uploadDS_cons_none pid s ds rest hdc hfind]
        exact uploadDS_objects pid rest _
      | some v =>
        rw [uploadDS_cons_some pid s ds rest v hdc hfind]
        exact uploadDS_objects pid rest _

theorem uploadDS_no_DC (pid : String) :
    ∀ (l : List DSentry) (s : Store),
      ∀ e ∈ (uploadDS pid s l).2, eventDSName e ≠ some "DC"
  | [], _ => by intro e he; simp [uploadDS] at he
  | ds :: rest, s => by
    intro e he
    by_cases hdc : ds.Name = "DC"
    · rw [uploadDS_cons_DC pid s ds rest hdc] at he
      exact uploadDS_no_DC pid rest s e he
    · cases hfind : assocFind (pid, ds.Name) s.streams with
      | none =>
        rw [uploadDS_cons_none pid s ds rest hdc hfind] at he
        rcases List.mem_cons.mp he with he1 | he2
        · subst he1; simpa [eventDSName] using hdc
        · rcases List.mem_cons.mp he2 with he3 | he4
          · subst he3; simpa [eventDSName, DSentry.Name] using hdc
          · exact uploadDS_no_DC pid rest _ e he4
      | some v =>
        rw [uploadDS_cons_some pid s ds rest v hdc hfind] at he
        rcases List.mem_cons.mp he with he1 | he2
        · subst he1; simpa [eventDSName] using hdc
        · rcases List.mem_cons.mp he2 with he3 | he4
          · subst he3; simpa [eventDSName, DSentry.Name] using hdc
          · exact uploadDS_no_DC pid rest _ e he4

theorem uploadDS_no_makeObject (pid : String) :
    ∀ (l : List DSentry) (s : Store) (i : ObjectInfo),
      RemoteEvent.makeObject i ∉ (uploadDS pid s l).2
  | [], _, _ => by simp [uploadDS]
  | ds :: rest, s, i => by
    intro he
    by_cases hdc : ds.Name = "DC"
    · rw [uploadDS_cons_DC pid s ds rest hdc] at he
      exact uploadDS_no_makeObject pid rest s i he
    · cases hfind : assocFind (pid, ds.Name) s.streams with
      | none =>
        rw [uploadDS_cons_none pid s ds rest hdc hfind] at he
        rcases List.mem_cons.mp he with he1 | he2
        · exact RemoteEvent.noConfusion he1
        · rcases List.mem_cons.mp he2 with he3 | he4
          · exact RemoteEvent.noConfusion he3
          · exact uploadDS_no_makeObject pid rest _ i he4
      | some v =>
        rw [uploadDS_cons_some pid s ds rest v hdc hfind] at he
        rcases List.mem_cons.mp he with he1 | he2
        · exact RemoteEvent.noConfusion he1
        · rcases List.mem_cons.mp he2 with he3 | he4
          · exact RemoteEvent.noConfusion he3
          · exact uploadDS_no_makeObject pid rest _ i he4

theorem uploadDS_mem (pid : String) :
    ∀ (l : List DSentry) (s : Store) (d : DSentry),
      (l.map DSentry.Name).Nodup → d ∈ l → d.Name ≠ "DC" →
      (assocFind (pid, d.Name) s.streams = none →
         RemoteEvent.makeDatastream pid d.info (chooseSource d) ∈ (uploadDS pid s l).2) ∧
      (∀ i, assocFind (pid, d.Name) s.streams = some i →
         RemoteEvent.updateDatastream pid d.info (chooseSource d) ∈ (uploadDS pid s l).2)
  | [], _, d => by intro _ hd; cases hd
  | ds :: rest, s, d => by
    intro hnd hd hdc
    rcases List.mem_cons.mp hd with hd1 | hd2
    · subst hd1
      constructor
      · intro hfind
        rw [uploadDS_cons_none pid s d rest hdc hfind]
        exact List.mem_cons_of_mem _ (List.mem_cons_self _ _)
      · intro i hfind
        rw [uploadDS_cons_some pid s d rest i hdc hfind]
        exact List.mem_cons_of_mem _ (List.mem_cons_self _ _)
    · have hname : ds.Name ≠ d.Name := by
        have h1 : d.Name ∈ rest.map DSentry.Name := List.mem_map_of_mem _ hd2
        have h2 := (List.nodup_cons.mp hnd).1
        intro h; rw [h] at h2; exact h2 h1
      have hnd' := (List.nodup_cons.mp hnd).2
      have hkey : ((pid, d.Name) : String × String) ≠ (pid, ds.Name) := by
        intro h
        exact hname (congrArg Prod.snd h).symm
      by_cases hdc2 : ds.Name = "DC"
      · rw [uploadDS_cons_DC pid s ds rest hdc2]
        exact uploadDS_mem pid rest s d hnd' hd2 hdc
      · cases hfind : assocFind (pid, ds.Name) s.streams with
        | none =>
          have hpres : assocFind (pid, d.Name)
              (s.streams ++ [((pid, ds.Name), ds.info)]) = assocFind (pid, d.Name) s.streams :=
            assocFind_append_single s.streams _ _ _ hkey
          have ih := uploadDS_mem pid rest
            { s with streams := s.streams ++ [((pid, ds.Name), ds.info)] } d hnd' hd2 hdc
          rw [uploadDS_cons_none pid s ds rest hdc2 hfind]
          constructor
          · intro h
            exact List.mem_cons_of_mem _ (List.mem_cons_of_mem _ (ih.1 (by rw [hpres]; exact h)))
          · intro i h
            exact List.mem_cons_of_mem _ (List.mem_cons_of_mem _ (ih.2 i (by rw [hpres]; exact h)))
        | some v =>
          have hpres : assocFind (pid, d.Name)
              (updateStream s.streams (pid, ds.Name) ds.info) = assocFind (pid, d.Name) s.streams :=
            assocFind_updateStream s.streams _ _ _ hkey
          have ih := uploadDS_mem pid rest
            { s with streams := updateStream s.streams (pid, ds.Name) ds.info } d hnd' hd2 hdc
          rw [uploadDS_cons_some pid s ds rest v hdc2 hfind]
          constructor
          · intro h
            exact List.mem_cons_of_mem _ (List.mem_cons_of_mem _ (ih.1 (by rw [hpres]; exact h)))
          · intro i h
            exact List.mem_cons_of_mem _ (List.mem_cons_of_mem _ (ih.2 i (by rw [hpres]; exact h)))

theorem UploadOneObject_absent (s : Store) (obj : FObject)
    (hfind : assocFind obj.PID s.objects = none) :
    UploadOneObject s obj
      = ((uploadDS obj.PID { s with objects := s.objects ++ [(obj.PID, obj.info)] } obj.DSitems).1,
         RemoteEvent.probeObject obj.PID :: RemoteEvent.makeObject obj.info ::
         (uploadDS obj.PID { s with objects := s.objects ++ [(obj.PID, obj.info)] } obj.DSitems).2) := by
  simp only [UploadOneObject]
  rw [hfind]

theorem UploadOneObject_present (s : Store) (obj : FObject) (oi : ObjectInfo)
    (hfind : assocFind obj.PID s.objects = some oi) :
    UploadOneObject s obj
      = ((uploadDS obj.PID s obj.DSitems).1,
         RemoteEvent.probeObject obj.PID :: (uploadDS obj.PID s obj.DSitems).2) := by
  simp only [UploadOneObject]
  rw [hfind]

theorem uploadDS_event_src (pid : String) :
    ∀ (l : List DSentry) (s : Store) (i : DsInfo) (src : Option ContentSource),
      (RemoteEvent.makeDatastream pid i src ∈ (uploadDS pid s l).2 ∨
       RemoteEvent.updateDatastream pid i src ∈ (uploadDS pid s l).2) →
      ∃ d ∈ l, i = d.info ∧ src = chooseSource d
  | [], _, i, src => by
    intro h; rcases h with h | h <;> simp [uploadDS] at h
  | ds :: rest, s, i, src => by
    intro h
    by_cases hdc : ds.Name = "DC"
    · rw [uploadDS_cons_DC pid s ds rest hdc] at h
      obtain ⟨d, hd, hh⟩ := uploadDS_event_src pid rest s i src h
      exact ⟨d, List.mem_cons_of_mem _ hd, hh⟩
    · cases hfind : assocFind (pid, ds.Name) s.streams with
      | none =>
        rw [uploadDS_cons_none pid s ds rest hdc hfind] at h
        rcases h with h | h
        · rcases List.mem_cons.mp h with h1 | h2
          · exact RemoteEvent.noConfusion h1
          · rcases List.mem_cons.mp h2 with h3 | h4
            · injection h3 with h3a h3b h3c
              exact ⟨ds, List.mem_cons_self _ _, h3b, h3c⟩
            · obtain ⟨d, hd, hh⟩ := uploadDS_event_src pid rest _ i src (Or.inl h4)
              exact ⟨d, List.mem_cons_of_mem _ hd, hh⟩
        · rcases List.mem_cons.mp h with h1 | h2
          · exact RemoteEvent.noConfusion h1
          · rcases List.mem_cons.mp h2 with h3 | h4
            · exact RemoteEvent.noConfusion h3
            · obtain ⟨d, hd, hh⟩ := uploadDS_event_src pid rest _ i src (Or.inr h4)
              exact ⟨d, List.mem_cons_of_mem _ hd, hh⟩
      | some v =>
        rw [uploadDS_cons_some pid s ds rest v hdc hfind] at h
        rcases h with h | h
        · rcases List.mem_cons.mp h with h1 | h2
          · exact RemoteEvent.noConfusion h1
          · rcases List.mem_cons.mp h2 with h3 | h4
            · exact RemoteEvent.noConfusion h3
            · obtain ⟨d, hd, hh⟩ := uploadDS_event_src pid rest _ i src (Or.inl h4)
              exact ⟨d, List.mem_cons_of_mem _ hd, hh⟩
        · rcases List.mem_cons.mp h with h1 | h2
          · exact RemoteEvent.noConfusion h1
          · rcases List.mem_cons.mp h2 with h3 | h4
            · injection h3 with h3a h3b h3c
              exact ⟨ds, List.mem_cons_self _ _, h3b, h3c⟩
            · obtain ⟨d, hd, hh⟩ := uploadDS_event_src pid rest _ i src (Or.inr h4)
              exact ⟨d, List.mem_cons_of_mem _ hd, hh⟩

/-! ## C2 -/

/-- C2: reconciliation probes the store by PID; when absent the object is
created from the decoded record, when present no create-object call is made
and the stored record is untouched afterwards; no remote call ever mentions
the datastream named DC; and every other datastream entry of the decoded list
is created when its name is absent and updated in place when present
(assuming, as the spec states, that datastream names are unique within an
object). -/
theorem C2_upload_reconciliation (s : Store) (obj : FObject)
    (hnd : (obj.DSitems.map DSentry.Name).Nodup) :
    (assocFind obj.PID s.objects = none →
       RemoteEvent.makeObject obj.info ∈ (UploadOneObject s obj).2) ∧
    (∀ oi, assocFind obj.PID s.objects = some oi →
       (∀ i, RemoteEvent.makeObject i ∉ (UploadOneObject s obj).2) ∧
       assocFind obj.PID (UploadOneObject s obj).1.objects = some oi) ∧
    (∀ e ∈ (UploadOneObject s obj).2, eventDSName e ≠ some "DC") ∧
    (∀ d ∈ obj.DSitems, d.Name ≠ "DC" →
       (assocFind (obj.PID, d.Name) s.streams = none →
          RemoteEvent.makeDatastream obj.PID d.info (chooseSource d)
            ∈ (UploadOneObject s obj).2) ∧
       (∀ i, assocFind (obj.PID, d.Name) s.streams = some i →
          RemoteEvent.updateDatastream obj.PID d.info (chooseSource d)
            ∈ (UploadOneObject s obj).2)) := by
  refine ⟨?_, ?_, ?_, ?_⟩
  · intro hfind
    rw [UploadOneObject_absent s obj hfind]
    exact List.mem_cons_of_mem _ (List.mem_cons_self _ _)
  · intro oi hfind
    rw [UploadOneObject_present s obj oi hfind]
    constructor
    · intro i hmem
      rcases List.mem_cons.mp hmem with h1 | h2
      · exact RemoteEvent.noConfusion h1
      · exact uploadDS_no_makeObject obj.PID obj.DSitems s i h2
    · rw [uploadDS_objects obj.PID obj.DSitems s]
      exact hfind
  · intro e he
    cases hfind : assocFind obj.PID s.objects with
    | none =>
      rw [UploadOneObject_absent s obj hfind] at he
      rcases List.mem_cons.mp he with h1 | h2
      · subst h1; simp [eventDSName]
      · rcases List.mem_cons.mp h2 with h3 | h4
        · subst h3; simp [eventDSName]
        · exact uploadDS_no_DC obj.PID obj.DSitems _ e h4
    | some oi =>
      rw [UploadOneObject_present s obj oi hfind] at he
      rcases List.mem_cons.mp he with h1 | h2
      · subst h1; simp [eventDSName]
      · exact uploadDS_no_DC obj.PID obj.DSitems s e h2
  · intro d hd hdc
    cases hfind : assocFind obj.PID s.objects with
    | none =>
      rw [UploadOneObject_absent s obj hfind]
      have ih := uploadDS_mem obj.PID obj.DSitems
        { s with objects := s.objects ++ [(obj.PID, obj.info)] } d hnd hd hdc
      constructor
      · intro h
        exact List.mem_cons_of_mem _ (List.mem_cons_of_mem _ (ih.1 h))
      · intro i h
        exact List.mem_cons_of_mem _ (List.mem_cons_of_mem _ (ih.2 i h))
    | some oi =>
      rw [UploadOneObject_present s obj oi hfind]
      have ih := uploadDS_mem obj.PID obj.DSitems s d hnd hd hdc
      constructor
      · intro h
        exact List.mem_cons_of_mem _ (ih.1 h)
      · intro i h
        exact List.mem_cons_of_mem _ (ih.2 i h)

/-- Witness for C2 on a store without object x but with an existing
datastream (x, a): uploading an object with entries DC, a (text) and b (raw)
creates the object, updates a and creates b. -/
theorem C2_upload_reconciliation_witness :
    RemoteEvent.makeObject objW.info ∈ (UploadOneObject storeW objW).2 ∧
    RemoteEvent.updateDatastream objW.PID (mkDs "a" 3)
      (some (ContentSource.text [65])) ∈ (UploadOneObject storeW objW).2 ∧
    RemoteEvent.makeDatastream objW.PID (mkDs "b" 4)
      (some (ContentSource.raw [66])) ∈ (UploadOneObject storeW objW).2 := by
  have h := C2_upload_reconciliation storeW objW (by decide)
  refine ⟨h.1 rfl, ?_, ?_⟩
  · have h4 := h.2.2.2 { info := mkDs "a" 3, Content := [65], ContentBase64 := [] }
      (by decide) (by decide)
    exact h4.2 (mkDs "a" 1) rfl
  · have h4 := h.2.2.2 { info := mkDs "b" 4, Content := [], ContentBase64 := [66] }
      (by decide) (by decide)
    exact h4.1 rfl

/-! ## C4 -/

/-- C4: the content pushed for any created or updated datastream comes from
the entry by priority — a non-empty text form is used (so when both forms are
present the text wins and the raw form is ignored), else a non-empty raw
form, else no content at all. -/
theorem C4_content_source (s : Store) (obj : FObject) (i : DsInfo)
    (src : Option ContentSource)
    (h : RemoteEvent.makeDatastream obj.PID i src ∈ (UploadOneObject s obj).2 ∨
         RemoteEvent.updateDatastream obj.PID i src ∈ (UploadOneObject s obj).2) :
    ∃ d ∈ obj.DSitems, i = d.info ∧
      src = (if d.Content ≠ [] then some (ContentSource.text d.Content)
             else if d.ContentBase64 ≠ [] then some (ContentSource.raw d.ContentBase64)
             else none) := by
  have hsrc : ∃ d ∈ obj.DSitems, i = d.info ∧ src = chooseSource d := by
    cases hfind : assocFind obj.PID s.objects with
    | none =>
      rw [UploadOneObject_absent s obj hfind] at h
      apply uploadDS_event_src obj.PID obj.DSitems _ i src
      rcases h with h | h
      · rcases List.mem_cons.mp h with h1 | h2
        · exact RemoteEvent.noConfusion h1
        · rcases List.mem_cons.mp h2 with h3 | h4
          · exact RemoteEvent.noConfusion h3
          · exact Or.inl h4
      · rcases List.mem_cons.mp h with h1 | h2
        · exact RemoteEvent.noConfusion h1
        · rcases List.mem_cons.mp h2 with h3 | h4
          · exact RemoteEvent.noConfusion h3
          · exact Or.inr h4
    | some oi =>
      rw [UploadOneObject_present s obj oi hfind] at h
      apply uploadDS_event_src obj.PID obj.DSitems s i src
      rcases h with h | h
      · rcases List.mem_cons.mp h with h1 | h2
        · exact RemoteEvent.noConfusion h1
        · exact Or.inl h2
      · rcases List.mem_cons.mp h with h1 | h2
        · exact RemoteEvent.noConfusion h1
        · exact Or.inr h2
  obtain ⟨d, hd, hi, hs⟩ := hsrc
  exact ⟨d, hd, hi, hs⟩

/-- Witness for C4: the datastream b of the witness object is created with
its raw content, matching the priority rule. -/
theorem C4_content_source_witness :
    ∃ d ∈ objW.DSitems, mkDs "b" 4 = d.info ∧
      some (ContentSource.raw [66])
        = (if d.Content ≠ [] then some (ContentSource.text d.Content)
           else if d.ContentBase64 ≠ [] then some (ContentSource.raw d.ContentBase64)
           else none) :=
  C4_content_source storeW objW (mkDs "b" 4) (some (ContentSource.raw [66]))
    (Or.inl (by decide))

/-! ## C6: lemmas about the triple accumulator and the rights extractor -/

theorem Add_Meta (c : CurateItem) (p v : String) :
    (c.Add p v).Meta = if v = "" then c.Meta
      else c.Meta ++ [{ Subject := c.PID, Predicate := p, Object := v }] := by
  by_cases h : v = "" <;> simp [CurateItem.Add, h]

theorem countP_Add (qp : String → Bool) (c : CurateItem) (p v : String) :
    (c.Add p v).Meta.countP (fun t => qp t.Predicate)
      = c.Meta.countP (fun t => qp t.Predicate)
        + (if v = "" then 0 else if qp p then 1 else 0) := by
  by_cases h : v = ""
  · simp [Add_Meta, h]
  · simp [Add_Meta, h, List.countP_append, List.countP_cons]

theorem countP_addEach (qp : String → Bool) (label : String) :
    ∀ (vals : List String) (c : CurateItem),
      (addEach c label vals).Meta.countP (fun t => qp t.Predicate)
        = c.Meta.countP (fun t => qp t.Predicate)
          + (if qp label then (vals.filter (fun x => x != "")).length else 0)
  | [], c => by simp [addEach]
  | v :: vs, c => by
    have h1 : addEach c label (v :: vs) = addEach (c.Add label v) label vs := rfl
    rw [h1, countP_addEach qp label vs (c.Add label v), countP_Add qp c label v]
    by_cases hv : v = ""
    · simp [hv, List.filter_cons]
    · have hvb : (v != "") = true := by simp [hv]
      simp only [hv, List.filter_cons, hvb, if_true, if_false, List.length_cons]
      by_cases hq : qp label
      · simp [hq]
        omega
      · simp [hq]

theorem countPG_rightsStep (c : CurateItem) (a : Access) :
    countPG (rightsStep c a)
      = countPG c + (if a.type = "read" ∨ a.type = "edit" then pgEntryCount a else 0) := by
  by_cases hr : a.type = "read"
  · have h1 : rightsStep c a
        = addEach (addEach c "read-group" a.Groups) "read-person" a.Persons := by
      simp [rightsStep, hr]
    rw [h1]
    simp only [countPG]
    rw [countP_addEach isPGLabel "read-person" a.Persons,
        countP_addEach isPGLabel "read-group" a.Groups]
    simp [hr, pgEntryCount,
      show isPGLabel "read-person" = true from rfl,
      show isPGLabel "read-group" = true from rfl]
    omega
  · by_cases he : a.type = "edit"
    · have h1 : rightsStep c a
          = addEach (addEach c "edit-group" a.Groups) "edit-person" a.Persons := by
        simp [rightsStep, hr, he]
      rw [h1]
      simp only [countPG]
      rw [countP_addEach isPGLabel "edit-person" a.Persons,
          countP_addEach isPGLabel "edit-group" a.Groups]
      simp [hr, he, pgEntryCount,
        show isPGLabel "edit-person" = true from rfl,
        show isPGLabel "edit-group" = true from rfl]
      omega
    · simp [rightsStep, hr, he, countPG]

theorem countEmbargo_rightsStep (c : CurateItem) (a : Access) :
    countEmbargo (rightsStep c a) = countEmbargo c := by
  by_cases hr : a.type = "read"
  · have h1 : rightsStep c a
        = addEach (addEach c "read-group" a.Groups) "read-person" a.Persons := by
      simp [rightsStep, hr]
    rw [h1]
    simp only [countEmbargo]
    rw [countP_addEach isEmbargoLabel "read-person" a.Persons,
        countP_addEach isEmbargoLabel "read-group" a.Groups]
    simp [show isEmbargoLabel "read-person" = false from rfl,
      show isEmbargoLabel "read-group" = false from rfl]
  · by_cases he : a.type = "edit"
    · have h1 : rightsStep c a
          = addEach (addEach c "edit-group" a.Groups) "edit-person" a.Persons := by
        simp [rightsStep, hr, he]
      rw [h1]
      simp only [countEmbargo]
      rw [countP_addEach isEmbargoLabel "edit-person" a.Persons,
          countP_addEach isEmbargoLabel "edit-group" a.Groups]
      simp [show isEmbargoLabel "edit-person" = false from rfl,
        show isEmbargoLabel "edit-group" = false from rfl]
    · simp [rightsStep, hr, he]

theorem countPG_foldl_rights :
    ∀ (l : List Access) (c : CurateItem),
      countPG (l.foldl rightsStep c)
        = countPG c
          + ((l.map (fun a => if a.type = "read" ∨ a.type = "edit" then pgEntryCount a else 0)).sum)
  | [], c => by simp
  | a :: l, c => by
    have h1 : (a :: l).foldl rightsStep c = l.foldl rightsStep (rightsStep c a) := rfl
    rw [h1, countPG_foldl_rights l (rightsStep c a), countPG_rightsStep]
    simp [List.map_cons, List.sum_cons]
    omega

theorem countEmbargo_foldl_rights :
    ∀ (l : List Access) (c : CurateItem),
      countEmbargo (l.foldl rightsStep c) = countEmbargo c
  | [], _ => rfl
  | a :: l, c => by
    have h1 : (a :: l).foldl rightsStep c = l.foldl rightsStep (rightsStep c a) := rfl
    rw [h1, countEmbargo_foldl_rights l (rightsStep c a), countEmbargo_rightsStep]

/-- C6 counterexample: the claim as stated fails on the code. A rights
document with exactly one access entry — a read block listing the single
person identifier represented by the empty string — yields zero person/group
triples rather than one, because the accumulator silently drops empty values. -/
theorem C6_counterexample_empty_person :
    vBadRights.Access.length = 1 ∧
    (vBadRights.Access.map (fun a => a.Persons.length + a.Groups.length)).sum = 1 ∧
    countPG (ReadRightsMetadata vBadRights item0) = 0 := by
  refine ⟨rfl, rfl, ?_⟩
  decide

/-- C6 (amended): each access block typed read or edit emits one triple per
non-empty person and per non-empty group identifier under the matching label
pair (empty identifiers are dropped by the accumulator), blocks of any other
type emit nothing, and one embargo-date triple is emitted exactly when the
embargo field is non-empty. -/
theorem C6_rights_emission (v : rightsDS) (c : CurateItem) :
    countPG (ReadRightsMetadata v c) = countPG c + rightsClaimPGCount v ∧
    countEmbargo (ReadRightsMetadata v c)
      = countEmbargo c + (if v.Embargo = "" then 0 else 1) := by
  constructor
  · have h1 : ReadRightsMetadata v c
        = (v.Access).foldl rightsStep (c.Add "embargo-date" v.Embargo) := rfl
    rw [h1, countPG_foldl_rights]
    have h2 : countPG (c.Add "embargo-date" v.Embargo) = countPG c := by
      simp [countPG, countP_Add, show isPGLabel "embargo-date" = false from rfl]
    rw [h2]
    rfl
  · have h1 : ReadRightsMetadata v c
        = (v.Access).foldl rightsStep (c.Add "embargo-date" v.Embargo) := rfl
    rw [h1, countEmbargo_foldl_rights]
    simp only [countEmbargo]
    rw [countP_Add isEmbargoLabel c "embargo-date" v.Embargo]
    simp [show isEmbargoLabel "embargo-date" = true from rfl]

/-! ## C7: lemmas about the sort used by the fetch path -/

theorem sortStrings_sorted (l : List String) : List.Sorted strLeP (sortStrings l) := by
  haveI : IsTotal String strLeP := ⟨strLeP_total⟩
  haveI : IsTrans String strLeP := ⟨fun _ _ _ h1 h2 => strLeP_trans h1 h2⟩
  exact List.sorted_insertionSort strLeP l

theorem sortStrings_perm (l : List String) : (sortStrings l).Perm l :=
  List.perm_insertionSort strLeP l

theorem sortStrings_congr {l l' : List String} (h : l.Perm l') :
    sortStrings l = sortStrings l' := by
  haveI : IsAntisymm String strLeP := ⟨fun _ _ h1 h2 => strLeP_antisymm h1 h2⟩
  exact List.eq_of_perm_of_sorted
    ((sortStrings_perm l).trans (h.trans (sortStrings_perm l').symm))
    (sortStrings_sorted l) (sortStrings_sorted l')

theorem fetchDS_names (remote : RemoteFedora) (id : String) :
    ∀ (names : List String) (items : List DSentry),
      fetchDS remote id names = Except.ok items →
      (∀ n i, remote.getDatastreamInfo id n = Except.ok i → i.Name = n) →
      items.map DSentry.Name = names
  | [], items, h, _ => by
    simp only [fetchDS, Except.ok.injEq] at h
    rw [← h]
    rfl
  | n :: rest, items, h, hname => by
    revert h
    cases hinfo : remote.getDatastreamInfo id n with
    | error e => intro h; simp [fetchDS, hinfo] at h
    | ok dsinfo =>
      by_cases hsz : dsinfo.Size > 0
      · cases hbody : remote.getDatastream id n with
        | error e => intro h; simp [fetchDS, hinfo, hsz, hbody] at h
        | ok body =>
          cases hrec : fetchDS remote id rest with
          | error e => intro h; simp [fetchDS, hinfo, hsz, hbody, hrec] at h
          | ok tail =>
            intro h
            simp only [fetchDS, hinfo, hsz, if_true, hbody, hrec, Except.ok.injEq] at h
            rw [← h]
            simp only [List.map_cons, DSentry.Name]
            rw [fetchDS_names remote id rest tail hrec hname, hname n dsinfo hinfo]
      · cases hrec : fetchDS remote id rest with
        | error e => intro h; simp [fetchDS, hinfo, hsz, hrec] at h
        | ok tail =>
          intro h
          simp only [fetchDS, hinfo, hsz, if_false, hrec, Except.ok.injEq] at h
          rw [← h]
          simp only [List.map_cons, DSentry.Name]
          rw [fetchDS_names remote id rest tail hrec hname, hname n dsinfo hinfo]

/-- C7: the datastream list of every successfully fetched object is sorted
by name in the byte-wise lexicographic order Go uses for strings — provided
the remote returns datastream records whose Name field matches the queried
name — and the sorted result is the same for any enumeration order of the
same set of names, so the output order is deterministic. -/
theorem C7_sorted_datastreams (remote : RemoteFedora) (id : String) (obj : FObject)
    (hfetch : FetchOneObject remote id = Except.ok obj)
    (hname : ∀ n i, remote.getDatastreamInfo id n = Except.ok i → i.Name = n) :
    List.Pairwise (fun a b => strLe a.Name b.Name = true) obj.DSitems ∧
    (∀ l l' : List String, l.Perm l' → sortStrings l = sortStrings l') := by
  constructor
  · revert hfetch
    cases hobj : remote.getObjectInfo id with
    | error e => intro h; simp [FetchOneObject, hobj] at h
    | ok oinfo =>
      cases hlist : remote.getDatastreamList id with
      | error e => intro h; simp [FetchOneObject, hobj, hlist] at h
      | ok names =>
        cases hds : fetchDS remote id (sortStrings names) with
        | error e => intro h; simp [FetchOneObject, hobj, hlist, hds] at h
        | ok items =>
          intro h
          simp only [FetchOneObject, hobj, hlist, hds, Except.ok.injEq] at h
          rw [← h]
          have hnames := fetchDS_names remote id (sortStrings names) items hds hname
          have hsorted := sortStrings_sorted names
          rw [← hnames] at hsorted
          exact List.pairwise_map.mp hsorted
  · intro l l' hperm
    exact sortStrings_congr hperm

/-- Witness for C7: fetching from a remote that lists names out of order as
b, a yields the datastream entries sorted as a, b. -/
theorem C7_sorted_datastreams_witness :
    List.Pairwise (fun a b => strLe a.Name b.Name = true) fetchedX.DSitems :=
  (C7_sorted_datastreams sortRemote "x" fetchedX rfl
    (fun n i h => by cases h; rfl)).1

/-! ## C8: lemmas about prefix compaction -/

theorem prefixes_no_overlap :
    List.Pairwise (fun a b : String × String =>
      List.isPrefixOf a.1.data b.1.data = false ∧
      List.isPrefixOf b.1.data a.1.data = false) Prefixes := by
  decide

theorem applyPrefixesAux_hit :
    ∀ (t : List (String × String)) (k v rest : String),
      List.Pairwise (fun a b : String × String =>
        List.isPrefixOf a.1.data b.1.data = false ∧
        List.isPrefixOf b.1.data a.1.data = false) t →
      (k, v) ∈ t →
      applyPrefixesAux t (k ++ rest) = v ++ rest
  | [], k, v, rest => by intro _ hmem; cases hmem
  | kv :: t', k, v, rest => by
    intro hpw hmem
    have hks : hasPrefix (k ++ rest) k = true := by
      simp only [hasPrefix, String.data_append]
      exact List.isPrefixOf_iff_prefix.mpr (List.prefix_append k.data rest.data)
    rcases List.mem_cons.mp hmem with h1 | h2
    · rw [← h1]
      simp only [applyPrefixesAux, hks, if_true]
      have ht : trimPrefix (k ++ rest) k = rest := by
        simp only [trimPrefix, hks, if_true, String.data_append, List.drop_left]
      rw [ht]
    · have hhead := (List.pairwise_cons.mp hpw).1 (k, v) h2
      have hnk : hasPrefix (k ++ rest) kv.1 = false := by
        cases hhp : hasPrefix (k ++ rest) kv.1 with
        | false => rfl
        | true =>
          exfalso
          have hp1 : kv.1.data <+: k.data ++ rest.data := by
            have hhp' := hhp
            simp only [hasPrefix, String.data_append] at hhp'
            exact List.isPrefixOf_iff_prefix.mp hhp'
          have hp2 : k.data <+: k.data ++ rest.data := List.prefix_append _ _
          rcases List.prefix_or_prefix_of_prefix hp1 hp2 with hc | hc
          · exact absurd (List.isPrefixOf_iff_prefix.mpr hc) (by simp [hhead.1])
          · exact absurd (List.isPrefixOf_iff_prefix.mpr hc) (by simp [hhead.2])
      simp only [applyPrefixesAux, hnk]
      simp only [Bool.false_eq_true, if_false]
      exact applyPrefixesAux_hit t' k v rest (List.pairwise_cons.mp hpw).2 h2

theorem applyPrefixesAux_miss :
    ∀ (t : List (String × String)) (s : String),
      (∀ kv ∈ t, hasPrefix s kv.1 = false) → applyPrefixesAux t s = s
  | [], _, _ => rfl
  | kv :: t', s, h => by
    have h1 := h kv (List.mem_cons_self _ _)
    simp only [applyPrefixesAux, h1, Bool.false_eq_true, if_false]
    exact applyPrefixesAux_miss t' s (fun kv' hm => h kv' (List.mem_cons_of_mem _ hm))

/-- C8: a string that starts with a registered namespace URI has exactly that
URI replaced by its short form once, with the remainder kept verbatim (no key
of the table is a prefix of another, so at most one entry can apply and the
Go map iteration order is immaterial), and a string starting with no
registered URI is returned unchanged. -/
theorem C8_prefix_compaction (s : String) :
    (∀ k v rest, (k, v) ∈ Prefixes → s = k ++ rest → ApplyPrefixes s = v ++ rest) ∧
    ((∀ kv ∈ Prefixes, hasPrefix s kv.1 = false) → ApplyPrefixes s = s) := by
  constructor
  · intro k v rest hmem hs
    rw [hs]
    exact applyPrefixesAux_hit Prefixes k v rest prefixes_no_overlap hmem
  · intro h
    exact applyPrefixesAux_miss Prefixes s h

/-- Witness for C8: a value in the und namespace is compacted to its short
form, and a value matching no registered URI is unchanged. -/
theorem C8_prefix_compaction_witness :
    ApplyPrefixes "info:fedora/und:abc" = "und:abc" ∧ ApplyPrefixes "plain" = "plain" := by
  constructor
  · have h := (C8_prefix_compaction "info:fedora/und:abc").1 "info:fedora/und:" "und:" "abc"
      (by decide) (by decide)
    rw [h]
    decide
  · exact (C8_prefix_compaction "plain").2 (by decide)

/-! ## C9 and C10: lemmas about accumulator membership -/

theorem mem_Add (c : CurateItem) (p v : String) (t : Triples)
    (h : t ∈ (c.Add p v).Meta) :
    t ∈ c.Meta ∨ t = { Subject := c.PID, Predicate := p, Object := v } := by
  by_cases hv : v = ""
  · simp only [CurateItem.Add, hv, if_true] at h
    exact Or.inl h
  · simp only [CurateItem.Add, hv, if_false, List.mem_append, List.mem_singleton] at h
    rcases h with h | h
    · exact Or.inl h
    · exact Or.inr h

theorem mem_Add3 (c : CurateItem) (sub p v : String) (t : Triples)
    (h : t ∈ (c.Add3 sub p v).Meta) :
    t ∈ c.Meta ∨ t = { Subject := sub, Predicate := p, Object := v } := by
  by_cases hv : v = ""
  · simp only [CurateItem.Add3, hv, if_true] at h
    exact Or.inl h
  · simp only [CurateItem.Add3, hv, if_false, List.mem_append, List.mem_singleton] at h
    rcases h with h | h
    · exact Or.inl h
    · exact Or.inr h

/-- C9: every triple accumulated stays scoped to its object. Triples added by
the plain accumulator carry the item PID as subject, and every triple emitted
by the descriptive-metadata extractor carries either a subject that already
equals the owning id or the composite id/subject built from the compacted
local subject of one of the decoded statements. -/
theorem C9_subject_scoping (id : String) (stmts : List (String × String × String))
    (c : CurateItem) :
    (∀ t ∈ (ReadDescMetadata id stmts c).Meta, t ∈ c.Meta ∨
       ∃ stmt ∈ stmts,
         t.Subject = (if ApplyPrefixes stmt.1 ≠ id
                      then id ++ "/" ++ ApplyPrefixes stmt.1
                      else ApplyPrefixes stmt.1)) ∧
    (∀ (c' : CurateItem) (pred val : String) (t : Triples),
       t ∈ (c'.Add pred val).Meta → t ∈ c'.Meta ∨ t.Subject = c'.PID) := by
  constructor
  · intro t
    induction stmts generalizing c with
    | nil => intro ht; exact Or.inl ht
    | cons st sts ih =>
      intro ht
      have ht' : t ∈ (ReadDescMetadata id sts (descStep id c st)).Meta := ht
      rcases ih (descStep id c st) ht' with h1 | h2
      · rcases mem_Add3 c
          (if ApplyPrefixes st.1 ≠ id then id ++ "/" ++ ApplyPrefixes st.1
           else ApplyPrefixes st.1)
          (ApplyPrefixes st.2.1) (ApplyPrefixes st.2.2) t h1 with h3 | h4
        · exact Or.inl h3
        · refine Or.inr ⟨st, List.mem_cons_self _ _, ?_⟩
          rw [h4]
      · obtain ⟨stmt, hmem, hsub⟩ := h2
        exact Or.inr ⟨stmt, List.mem_cons_of_mem _ hmem, hsub⟩
  · intro c' pred val t ht
    rcases mem_Add c' pred val t ht with h | h
    · exact Or.inl h
    · refine Or.inr ?_
      rw [h]

/-- Witness for C9: a decoded statement whose subject compacts to s, which
differs from the owning id p, yields a triple whose subject is the composite
p/s. -/
theorem C9_subject_scoping_witness :
    ({ Subject := "p/s", Predicate := "pr", Object := "ob" } : Triples) ∈ item0.Meta ∨
    ∃ stmt ∈ [("s", "pr", "ob")],
      ({ Subject := "p/s", Predicate := "pr", Object := "ob" } : Triples).Subject
        = (if ApplyPrefixes stmt.1 ≠ "p"
           then "p" ++ "/" ++ ApplyPrefixes stmt.1
           else ApplyPrefixes stmt.1) :=
  (C9_subject_scoping "p" [("s", "pr", "ob")] item0).1
    { Subject := "p/s", Predicate := "pr", Object := "ob" } (by decide)

theorem Add_object_ne (c : CurateItem) (p v : String)
    (hinv : ∀ t ∈ c.Meta, t.Object ≠ "") :
    ∀ t ∈ (c.Add p v).Meta, t.Object ≠ "" := by
  intro t ht
  by_cases hv : v = ""
  · simp only [CurateItem.Add, hv, if_true] at ht
    exact hinv t ht
  · rcases mem_Add c p v t ht with h | h
    · exact hinv t h
    · rw [h]
      exact hv

theorem Add3_object_ne (c : CurateItem) (sub p v : String)
    (hinv : ∀ t ∈ c.Meta, t.Object ≠ "") :
    ∀ t ∈ (c.Add3 sub p v).Meta, t.Object ≠ "" := by
  intro t ht
  by_cases hv : v = ""
  · simp only [CurateItem.Add3, hv, if_true] at ht
    exact hinv t ht
  · rcases mem_Add3 c sub p v t ht with h | h
    · exact hinv t h
    · rw [h]
      exact hv

theorem addEach_object_ne (label : String) :
    ∀ (vals : List String) (c : CurateItem),
      (∀ t ∈ c.Meta, t.Object ≠ "") →
      ∀ t ∈ (addEach c label vals).Meta, t.Object ≠ ""
  | [], _, hinv => hinv
  | v :: vs, c, hinv =>
    addEach_object_ne label vs (c.Add label v) (Add_object_ne c label v hinv)

theorem rightsStep_object_ne (c : CurateItem) (a : Access)
    (hinv : ∀ t ∈ c.Meta, t.Object ≠ "") :
    ∀ t ∈ (rightsStep c a).Meta, t.Object ≠ "" := by
  by_cases hr : a.type = "read"
  · have h1 : rightsStep c a
        = addEach (addEach c "read-group" a.Groups) "read-person" a.Persons := by
      simp [rightsStep, hr]
    rw [h1]
    exact addEach_object_ne _ _ _ (addEach_object_ne _ _ _ hinv)
  · by_cases he : a.type = "edit"
    · have h1 : rightsStep c a
          = addEach (addEach c "edit-group" a.Groups) "edit-person" a.Persons := by
        simp [rightsStep, hr, he]
      rw [h1]
      exact addEach_object_ne _ _ _ (addEach_object_ne _ _ _ hinv)
    · have h1 : rightsStep c a = c := by simp [rightsStep, hr, he]
      rw [h1]
      exact hinv

theorem foldl_rights_object_ne :
    ∀ (l : List Access) (c : CurateItem),
      (∀ t ∈ c.Meta, t.Object ≠ "") →
      ∀ t ∈ (l.foldl rightsStep c).Meta, t.Object ≠ ""
  | [], _, hinv => hinv
  | a :: l, c, hinv =>
    foldl_rights_object_ne l (rightsStep c a) (rightsStep_object_ne c a hinv)

theorem ReadDesc_object_ne (id : String) :
    ∀ (stmts : List (String × String × String)) (c : CurateItem),
      (∀ t ∈ c.Meta, t.Object ≠ "") →
      ∀ t ∈ (ReadDescMetadata id stmts c).Meta, t.Object ≠ ""
  | [], _, hinv => hinv
  | st :: sts, c, hinv =>
    ReadDesc_object_ne id sts (descStep id c st)
      (Add3_object_ne _ _ _ _ hinv)

/-- C10: the accumulator operations leave the item unchanged when called with
an empty value, and consequently the non-empty-object invariant of the triple
list is preserved by Add, Add3 and the rights and descriptive-metadata
extractors, so no extractor can emit a triple whose object field is empty. -/
theorem C10_no_empty_object (c : CurateItem) (subject predicate value : String)
    (v : rightsDS) (id : String) (stmts : List (String × String × String)) :
    (c.Add predicate "" = c) ∧
    (c.Add3 subject predicate "" = c) ∧
    ((∀ t ∈ c.Meta, t.Object ≠ "") →
       (∀ t ∈ (c.Add predicate value).Meta, t.Object ≠ "") ∧
       (∀ t ∈ (c.Add3 subject predicate value).Meta, t.Object ≠ "") ∧
       (∀ t ∈ (ReadRightsMetadata v c).Meta, t.Object ≠ "") ∧
       (∀ t ∈ (ReadDescMetadata id stmts c).Meta, t.Object ≠ "")) := by
  refine ⟨by simp [CurateItem.Add], by simp [CurateItem.Add3], ?_⟩
  intro hinv
  refine ⟨Add_object_ne c predicate value hinv,
          Add3_object_ne c subject predicate value hinv, ?_, ?_⟩
  · have h1 : ReadRightsMetadata v c
        = (v.Access).foldl rightsStep (c.Add "embargo-date" v.Embargo) := rfl
    rw [h1]
    exact foldl_rights_object_ne _ _ (Add_object_ne c _ _ hinv)
  · exact ReadDesc_object_ne id stmts c hinv

/-- Witness for C10: adding a non-empty value to an accumulator whose triples
all have non-empty objects keeps the invariant, and adding an empty value is
a no-op. -/
theorem C10_no_empty_object_witness :
    (∀ t ∈ (itemNE.Add "pr2" "w").Meta, t.Object ≠ "") ∧
    itemNE.Add "pr2" "" = itemNE :=
  ⟨((C10_no_empty_object itemNE "s" "pr2" "w" vBadRights "p" []).2.2 (by decide)).1,
   (C10_no_empty_object itemNE "s" "pr2" "" vBadRights "p" []).1⟩

end F3CP

